import Mathlib

/-!
Verification of the SecureShare backend (`src/backend/app.py`).

The backend is a Flask app holding a global dict `secrets_store` and two
handlers:

* `store_secret` (POST /api/secret): parses the JSON body, returns 400 when
  `not data or 'encrypted_data' not in data`, otherwise generates a fresh
  uuid4 string, stores `{'encrypted_data': data['encrypted_data']}` under it
  and returns 201 with the id.
* `retrieve_secret` (GET /api/secret/<id>): `secrets_store.pop(secret_id, None)`,
  returns 200 with the popped value when truthy, otherwise a fixed 404 body.

The embedding models parsed JSON values (`JVal`), Python truthiness, the
`in` membership test and `[...]` subscript (both of which can raise
`TypeError` on non-dict bodies), the dict as an association list with unique
keys, and the uuid4 generator as an abstract stream `gen : Nat → String`
indexed by a draw counter (uuid4 draws are modelled as successive values of
the stream; collision-freeness of uuid4 becomes an explicit hypothesis where
a proof needs it).
-/

/-- Parsed JSON values, as produced by `request.get_json()`.
Numbers are modelled by integers. -/
inductive JVal where
  | null : JVal
  | bool (b : Bool) : JVal
  | num (n : Int) : JVal
  | str (s : String) : JVal
  | arr (xs : List JVal) : JVal
  | obj (fields : List (String × JVal)) : JVal

/-- Python truthiness of a parsed JSON value (`if not data`):
`None`, `False`, `0`, `""`, `[]` and `{}` are falsy, everything else truthy. -/
def truthy : JVal → Bool
  | .null => false
  | .bool b => b
  | .num n => decide (n ≠ 0)
  | .str s => decide (s ≠ "")
  | .arr xs => !xs.isEmpty
  | .obj fs => !fs.isEmpty

/-- Character-list version of `l₁` being an initial segment of `l₂`. -/
def leadsWith : List Char → List Char → Bool
  | [], _ => true
  | _ :: _, [] => false
  | a :: t, b :: u => a == b && leadsWith t u

/-- Python substring test `needle in hay` on strings, over character lists. -/
def hasNeedle (needle : List Char) : List Char → Bool
  | [] => needle.isEmpty
  | c :: t => leadsWith needle (c :: t) || hasNeedle needle t

/-- The payload field name the handler looks up. -/
def keyStr : String := "encrypted_data"

/-- Python runtime errors the handler body can raise. -/
inductive PyErr where
  | typeError : PyErr
  | keyError : PyErr

/-- Python `'encrypted_data' in data` on a parsed JSON value: key membership
for dicts, element equality for lists, substring test for strings, and a
`TypeError` for numbers and booleans (`None` never reaches this test in the
handler because it is falsy). -/
def pyIn : JVal → Except PyErr Bool
  | .obj fs => .ok (fs.any (fun kv => kv.1 == keyStr))
  | .arr xs => .ok (xs.any (fun x => match x with | .str s => s == keyStr | _ => false))
  | .str s => .ok (hasNeedle keyStr.data s.data)
  | _ => .error .typeError

/-- Python `data['encrypted_data']`: dict lookup (a `KeyError` when the key
is missing), and a `TypeError` for every non-dict value. -/
def pySubscript : JVal → Except PyErr JVal
  | .obj fs =>
    match fs.find? (fun kv => kv.1 == keyStr) with
    | some kv => .ok kv.2
    | none => .error .keyError
  | _ => .error .typeError

/-- An HTTP response: status code and JSON body. -/
structure Resp where
  status : Nat
  body : JVal

/-- The 400 response of `store_secret` for a rejected body. -/
def errRequired : Resp :=
  ⟨400, .obj [("error", .str "encrypted_data is required")]⟩

/-- The 404 response of `retrieve_secret`; a single fixed message for every
missing id. -/
def notFoundResp : Resp :=
  ⟨404, .obj [("error", .str "Secret not found. It may have been viewed already.")]⟩

/-- The 201 response of `store_secret` carrying the new id. -/
def createdResp (sid : String) : Resp :=
  ⟨201, .obj [("secret_id", .str sid)]⟩

/-- The 200 response of `retrieve_secret` carrying the stored dict. -/
def okResp (d : JVal) : Resp :=
  ⟨200, d⟩

/-- Lookup in a Python dict modelled as an association list. -/
def dget : List (String × JVal) → String → Option JVal
  | [], _ => none
  | (k, v) :: t, key => if k = key then some v else dget t key

/-- Python `d[key] = v`: replace the binding in place when the key is
present, append otherwise. -/
def dset : List (String × JVal) → String → JVal → List (String × JVal)
  | [], key, v => [(key, v)]
  | (k, w) :: t, key, v =>
    if k = key then (key, v) :: t else (k, w) :: dset t key v

/-- Python `d.pop(key, None)`: the popped value (or `none`) together with
the remaining dict. -/
def dpop : List (String × JVal) → String → Option JVal × List (String × JVal)
  | [], _ => (none, [])
  | (k, w) :: t, key =>
    if k = key then (some w, t)
    else
      let r := dpop t key
      (r.1, (k, w) :: r.2)

/-- The server state: the global `secrets_store` dict together with the
number of uuid4 draws made so far (the index into the generator stream). -/
structure Vault where
  store : List (String × JVal)
  ctr : Nat

/-- The initial state: empty `secrets_store`, no uuid drawn yet. -/
def vault0 : Vault := ⟨[], 0⟩

/-- The `store_secret` handler on an already-parsed JSON body.
`gen` is the uuid4 stream; the draw made by `str(uuid.uuid4())` is
`gen s.ctr` and bumps the counter. Mirrors the Python line by line:
the short-circuit `not data or 'encrypted_data' not in data`, then the
insertion of `{'encrypted_data': data['encrypted_data']}`. A raised
`TypeError` propagates out of the handler as `Except.error`. -/
def store_secret (gen : Nat → String) (body : JVal) (s : Vault) :
    Except PyErr (Resp × Vault) :=
  if truthy body = false then .ok (errRequired, s)
  else
    match pyIn body with
    | .error e => .error e
    | .ok false => .ok (errRequired, s)
    | .ok true =>
      match pySubscript body with
      | .error e => .error e
      | .ok v =>
        let sid := gen s.ctr
        .ok (createdResp sid, ⟨dset s.store sid (.obj [(keyStr, v)]), s.ctr + 1⟩)

/-- The `retrieve_secret` handler: `secrets_store.pop(secret_id, None)`,
then `if secret:` (truthiness of the popped value; `None` is falsy). -/
def retrieve_secret (sid : String) (s : Vault) : Resp × Vault :=
  let r := dpop s.store sid
  let s' : Vault := ⟨r.2, s.ctr⟩
  match r.1 with
  | some d => if truthy d then (okResp d, s') else (notFoundResp, s')
  | none => (notFoundResp, s')

/-- Iterate `retrieve_secret` on the same id `n` times, collecting the
responses in order. -/
def takeN (sid : String) (s : Vault) : Nat → List Resp × Vault
  | 0 => ([], s)
  | n + 1 =>
    let r := retrieve_secret sid s
    let rest := takeN sid r.2 n
    (r.1 :: rest.1, rest.2)

/-- One client-visible operation against the server. -/
inductive Op where
  | opPut (body : JVal) : Op
  | opTake (sid : String) : Op

/-- The state transition of one operation (a raised exception leaves the
store untouched: the handler fails before mutating it). -/
def step (gen : Nat → String) (s : Vault) : Op → Vault
  | .opPut b =>
    match store_secret gen b s with
    | .ok rs => rs.2
    | .error _ => s
  | .opTake sid => (retrieve_secret sid s).2

/-- Run a sequence of operations from a state. -/
def run (gen : Nat → String) (s : Vault) : List Op → Vault
  | [] => s
  | o :: t => run gen (step gen s o) t

/-- The id `k` has already been drawn from the generator before draw `c`. -/
def issued (gen : Nat → String) (c : Nat) (k : String) : Prop :=
  ∃ i, i < c ∧ k = gen i

/-- The representation invariant of the vault: dict keys are unique, every
stored key was drawn from the generator, and every stored value is the
one-field dict `{'encrypted_data': v}` built by `store_secret`. -/
def VaultInv (gen : Nat → String) (s : Vault) : Prop :=
  (s.store.map Prod.fst).Nodup ∧
  (∀ kv ∈ s.store, issued gen s.ctr kv.1) ∧
  (∀ kv ∈ s.store, ∃ v, kv.2 = JVal.obj [(keyStr, v)])

/-- A concrete generator stream used to instantiate theorems: the n-th draw
is the string of n copies of the character 'a' (injective, so no draw is
ever repeated — the behaviour uuid4 provides with overwhelming probability). -/
def genw : Nat → String := fun n => String.mk (List.replicate n 'a')

/-- The state-machine properties of the state reached by running `ops` from
the initial state: (1) ids bind uniquely, to well-formed stored secrets;
(2) a stored binding is lost or changed by an operation only when that
operation is a successful `take` of exactly that id (so the only transition
of a secret is present → absent, and nothing updates a stored payload);
(3) once an id held by the vault has been consumed, no later operation
sequence ever makes it present again (the transition is irreversible). -/
def StateMachineProp (gen : Nat → String) (ops : List Op) : Prop :=
  (((run gen vault0 ops).store.map Prod.fst).Nodup ∧
    ∀ kv ∈ (run gen vault0 ops).store, ∃ v, kv.2 = JVal.obj [(keyStr, v)]) ∧
  (∀ (o : Op) (sid : String) (v : JVal),
    dget (run gen vault0 ops).store sid = some v →
    dget (step gen (run gen vault0 ops) o).store sid ≠ some v →
    o = Op.opTake sid ∧ (retrieve_secret sid (run gen vault0 ops)).1 = okResp v) ∧
  (∀ (more : List Op) (sid : String),
    dget (run gen vault0 ops).store sid ≠ none →
    dget (run gen (run gen vault0 ops) more).store sid = none →
    ∀ later : List Op,
      dget (run gen (run gen (run gen vault0 ops) more) later).store sid = none)

/-!
Lemmas about the dict primitives and the handlers.
-/

theorem dget_dset_self (d : List (String × JVal)) (k : String) (v : JVal) :
    dget (dset d k v) k = some v := by
  induction d with
  | nil => simp [dset, dget]
  | cons hd t ih =>
    obtain ⟨k', w⟩ := hd
    by_cases h : k' = k
    · simp [dset, dget, h]
    · simp [dset, dget, h, ih]

theorem dget_dset_ne (d : List (String × JVal)) (k k' : String) (v : JVal)
    (h : k' ≠ k) : dget (dset d k v) k' = dget d k' := by
  induction d with
  | nil => simp [dset, dget, Ne.symm h]
  | cons hd t ih =>
    obtain ⟨k'', w⟩ := hd
    by_cases hk : k'' = k
    · subst hk
      simp [dset, dget, Ne.symm h]
    · by_cases hk' : k'' = k'
      · subst hk'
        simp [dset, dget, hk]
      · simp [dset, dget, hk, hk', ih]

theorem dset_of_dget_none (d : List (String × JVal)) (k : String) (v : JVal)
    (h : dget d k = none) : dset d k v = d ++ [(k, v)] := by
  induction d with
  | nil => simp [dset]
  | cons hd t ih =>
    obtain ⟨k', w⟩ := hd
    by_cases hk : k' = k
    · simp [dget, hk] at h
    · simp [dget, hk] at h
      simp [dset, hk, ih h]

theorem dpop_fst (d : List (String × JVal)) (k : String) :
    (dpop d k).1 = dget d k := by
  induction d with
  | nil => simp [dpop, dget]
  | cons hd t ih =>
    obtain ⟨k', w⟩ := hd
    by_cases hk : k' = k
    · simp [dpop, dget, hk]
    · simp [dpop, dget, hk, ih]

theorem dpop_of_dget_none (d : List (String × JVal)) (k : String)
    (h : dget d k = none) : dpop d k = (none, d) := by
  induction d with
  | nil => simp [dpop]
  | cons hd t ih =>
    obtain ⟨k', w⟩ := hd
    by_cases hk : k' = k
    · simp [dget, hk] at h
    · simp [dget, hk] at h
      simp [dpop, hk, ih h]

theorem dget_dpop_ne (d : List (String × JVal)) (k k' : String) (h : k' ≠ k) :
    dget (dpop d k).2 k' = dget d k' := by
  induction d with
  | nil => simp [dpop]
  | cons hd t ih =>
    obtain ⟨k'', w⟩ := hd
    by_cases hk : k'' = k
    · subst hk
      simp [dpop, dget, Ne.symm h]
    · by_cases hk' : k'' = k'
      · subst hk'
        simp [dpop, dget, hk]
      · simp [dpop, dget, hk, hk', ih]

theorem dget_none_iff (d : List (String × JVal)) (k : String) :
    dget d k = none ↔ k ∉ d.map Prod.fst := by
  induction d with
  | nil => simp [dget]
  | cons hd t ih =>
    obtain ⟨k', w⟩ := hd
    by_cases hk : k' = k
    · subst hk
      simp [dget]
    · simp [dget, hk, ih, Ne.symm hk]

theorem dget_dpop_self (d : List (String × JVal)) (k : String)
    (hnd : (d.map Prod.fst).Nodup) : dget (dpop d k).2 k = none := by
  induction d with
  | nil => simp [dpop, dget]
  | cons hd t ih =>
    obtain ⟨k', w⟩ := hd
    simp only [List.map_cons, List.nodup_cons] at hnd
    by_cases hk : k' = k
    · subst hk
      simp only [dpop, if_pos rfl]
      exact (dget_none_iff t k').mpr hnd.1
    · simp [dpop, dget, hk, ih hnd.2]

theorem dpop_sublist (d : List (String × JVal)) (k : String) :
    (dpop d k).2.Sublist d := by
  induction d with
  | nil => simp [dpop]
  | cons hd t ih =>
    obtain ⟨k', w⟩ := hd
    by_cases hk : k' = k
    · simp [dpop, hk]
    · simp only [dpop, if_neg hk]
      exact List.Sublist.cons₂ _ ih

theorem mem_dset (d : List (String × JVal)) (k : String) (v : JVal)
    (kv : String × JVal) (h : kv ∈ dset d k v) : kv = (k, v) ∨ kv ∈ d := by
  induction d with
  | nil => simpa [dset] using h
  | cons hd t ih =>
    obtain ⟨k', w⟩ := hd
    by_cases hk : k' = k
    · simp only [dset, if_pos hk] at h
      rcases List.mem_cons.mp h with h1 | h1
      · exact Or.inl h1
      · exact Or.inr (List.mem_cons_of_mem _ h1)
    · simp only [dset, if_neg hk] at h
      rcases List.mem_cons.mp h with h1 | h1
      · exact Or.inr (h1 ▸ List.mem_cons_self _ _)
      · rcases ih h1 with h2 | h2
        · exact Or.inl h2
        · exact Or.inr (List.mem_cons_of_mem _ h2)

theorem nodup_dset (d : List (String × JVal)) (k : String) (v : JVal)
    (hnd : (d.map Prod.fst).Nodup) : ((dset d k v).map Prod.fst).Nodup := by
  induction d with
  | nil => simp [dset]
  | cons hd t ih =>
    obtain ⟨k', w⟩ := hd
    simp only [List.map_cons, List.nodup_cons] at hnd
    by_cases hk : k' = k
    · subst hk
      simpa [dset, List.nodup_cons] using hnd
    · simp only [dset, if_neg hk, List.map_cons, List.nodup_cons]
      refine ⟨fun hmem => ?_, ih hnd.2⟩
      rcases List.mem_map.mp hmem with ⟨kv, hkv, hfst⟩
      rcases mem_dset t k v kv hkv with h1 | h1
      · exact hk (by rw [h1] at hfst; exact hfst.symm ▸ rfl)
      · exact hnd.1 (List.mem_map.mpr ⟨kv, h1, hfst⟩)

theorem length_dpop_some (d : List (String × JVal)) (k : String) (v : JVal)
    (h : dget d k = some v) : (dpop d k).2.length + 1 = d.length := by
  induction d with
  | nil => simp [dget] at h
  | cons hd t ih =>
    obtain ⟨k', w⟩ := hd
    by_cases hk : k' = k
    · simp [dpop, hk]
    · simp [dget, hk] at h
      simp [dpop, hk, ih h]

theorem dget_some_mem (d : List (String × JVal)) (k : String) (v : JVal)
    (h : dget d k = some v) : (k, v) ∈ d := by
  induction d with
  | nil => simp [dget] at h
  | cons hd t ih =>
    obtain ⟨k', w⟩ := hd
    by_cases hk : k' = k
    · subst hk
      simp [dget] at h
      simp [h]
    · simp only [dget, if_neg hk] at h
      exact List.mem_cons_of_mem _ (ih h)

theorem retrieve_of_none (sid : String) (s : Vault) (h : dget s.store sid = none) :
    retrieve_secret sid s = (notFoundResp, s) := by
  simp [retrieve_secret, dpop_of_dget_none s.store sid h]

theorem retrieve_of_some (sid : String) (s : Vault) (d : JVal)
    (h : dget s.store sid = some d) (ht : truthy d = true) :
    retrieve_secret sid s = (okResp d, ⟨(dpop s.store sid).2, s.ctr⟩) := by
  have h1 : (dpop s.store sid).1 = some d := by rw [dpop_fst]; exact h
  simp [retrieve_secret, h1, ht]

theorem retrieve_snd (sid : String) (s : Vault) :
    (retrieve_secret sid s).2 = ⟨(dpop s.store sid).2, s.ctr⟩ := by
  unfold retrieve_secret
  cases h : (dpop s.store sid).1 with
  | none => simp [h]
  | some d => by_cases ht : truthy d <;> simp [h, ht]

theorem takeN_absent (sid : String) (s : Vault) (h : dget s.store sid = none) :
    ∀ n, takeN sid s n = (List.replicate n notFoundResp, s) := by
  intro n
  induction n with
  | zero => simp [takeN]
  | succ m ih => simp [takeN, retrieve_of_none sid s h, ih, List.replicate_succ]

theorem store_secret_accepted (gen : Nat → String) (fields : List (String × JVal))
    (p : JVal) (s : Vault) (h : pySubscript (JVal.obj fields) = .ok p) :
    store_secret gen (JVal.obj fields) s =
      .ok (createdResp (gen s.ctr),
        ⟨dset s.store (gen s.ctr) (JVal.obj [(keyStr, p)]), s.ctr + 1⟩) := by
  obtain ⟨kv, hfind, hp⟩ :
      ∃ kv, fields.find? (fun kv => kv.1 == keyStr) = some kv ∧ kv.2 = p := by
    simp only [pySubscript] at h
    cases hf : fields.find? (fun kv => kv.1 == keyStr) with
    | none => rw [hf] at h; simp at h
    | some kv =>
      rw [hf] at h
      exact ⟨kv, rfl, by simpa using h⟩
  have hne : fields ≠ [] := by
    intro he
    subst he
    simp [List.find?] at hfind
  have htr : truthy (JVal.obj fields) = true := by
    cases fields with
    | nil => exact absurd rfl hne
    | cons a t => simp [truthy]
  have hprop := @List.find?_some (String × JVal) (fun kv => kv.1 == keyStr) kv fields hfind
  have hany : fields.any (fun kv => kv.1 == keyStr) = true :=
    List.any_eq_true.mpr ⟨kv, List.mem_of_find?_eq_some hfind, hprop⟩
  simp [store_secret, htr, pyIn, hany, pySubscript, hfind, hp]

theorem store_secret_cases (gen : Nat → String) (body : JVal) (s : Vault) :
    (∃ e, store_secret gen body s = .error e) ∨
    store_secret gen body s = .ok (errRequired, s) ∨
    (∃ v, store_secret gen body s =
      .ok (createdResp (gen s.ctr),
        ⟨dset s.store (gen s.ctr) (JVal.obj [(keyStr, v)]), s.ctr + 1⟩)) := by
  by_cases ht : truthy body = false
  · exact Or.inr (Or.inl (by simp [store_secret, ht]))
  · cases hin : pyIn body with
    | error e => exact Or.inl ⟨e, by simp [store_secret, ht, hin]⟩
    | ok b =>
      cases b with
      | false => exact Or.inr (Or.inl (by simp [store_secret, ht, hin]))
      | true =>
        cases hsub : pySubscript body with
        | error e => exact Or.inl ⟨e, by simp [store_secret, ht, hin, hsub]⟩
        | ok v => exact Or.inr (Or.inr ⟨v, by simp [store_secret, ht, hin, hsub]⟩)

theorem step_put_eq (gen : Nat → String) (b : JVal) (s : Vault) :
    step gen s (Op.opPut b) = s ∨
    ∃ v, step gen s (Op.opPut b) =
      ⟨dset s.store (gen s.ctr) (JVal.obj [(keyStr, v)]), s.ctr + 1⟩ := by
  rcases store_secret_cases gen b s with ⟨e, he⟩ | he | ⟨v, he⟩
  · exact Or.inl (by simp [step, he])
  · exact Or.inl (by simp [step, he])
  · exact Or.inr ⟨v, by simp [step, he]⟩

theorem step_take_store (gen : Nat → String) (sid : String) (s : Vault) :
    step gen s (Op.opTake sid) = ⟨(dpop s.store sid).2, s.ctr⟩ := by
  simp [step, retrieve_snd]

theorem genw_inj : Function.Injective genw := by
  intro a b h
  have h2 : List.replicate a 'a' = List.replicate b 'a' := congrArg String.data h
  simpa using congrArg List.length h2

theorem vaultInv_vault0 (gen : Nat → String) : VaultInv gen vault0 := by
  refine ⟨by simp [vault0], ?_, ?_⟩ <;> intro kv hkv <;> simp [vault0] at hkv

theorem vaultInv_step (gen : Nat → String) (s : Vault) (hs : VaultInv gen s)
    (o : Op) : VaultInv gen (step gen s o) := by
  obtain ⟨hnd, hiss, hwf⟩ := hs
  cases o with
  | opTake sid =>
    rw [step_take_store]
    have hsub : ((dpop s.store sid).2.map Prod.fst).Sublist (s.store.map Prod.fst) :=
      List.Sublist.map Prod.fst (dpop_sublist s.store sid)
    refine ⟨hnd.sublist hsub, ?_, ?_⟩
    · intro kv hkv
      exact hiss kv ((dpop_sublist s.store sid).subset hkv)
    · intro kv hkv
      exact hwf kv ((dpop_sublist s.store sid).subset hkv)
  | opPut b =>
    rcases step_put_eq gen b s with he | ⟨v, he⟩
    · rw [he]; exact ⟨hnd, hiss, hwf⟩
    · rw [he]
      refine ⟨nodup_dset _ _ _ hnd, ?_, ?_⟩
      · intro kv hkv
        rcases mem_dset _ _ _ _ hkv with h1 | h1
        · exact ⟨s.ctr, Nat.lt_succ_self _, by rw [h1]⟩
        · obtain ⟨i, hi, hk⟩ := hiss kv h1
          exact ⟨i, Nat.lt_succ_of_lt hi, hk⟩
      · intro kv hkv
        rcases mem_dset _ _ _ _ hkv with h1 | h1
        · exact ⟨v, by rw [h1]⟩
        · exact hwf kv h1

theorem vaultInv_run (gen : Nat → String) (s : Vault) (hs : VaultInv gen s)
    (ops : List Op) : VaultInv gen (run gen s ops) := by
  induction ops generalizing s with
  | nil => exact hs
  | cons o t ih => exact ih _ (vaultInv_step gen s hs o)

theorem step_ctr_le (gen : Nat → String) (s : Vault) (o : Op) :
    s.ctr ≤ (step gen s o).ctr := by
  cases o with
  | opTake sid =>
    rw [step_take_store]
  | opPut b =>
    rcases step_put_eq gen b s with he | ⟨v, he⟩
    · rw [he]
    · rw [he]
      simp

theorem run_ctr_le (gen : Nat → String) (s : Vault) (ops : List Op) :
    s.ctr ≤ (run gen s ops).ctr := by
  induction ops generalizing s with
  | nil => exact le_rfl
  | cons o t ih => exact le_trans (step_ctr_le gen s o) (ih _)

theorem issued_mono (gen : Nat → String) (c c' : Nat) (h : c ≤ c') (k : String) :
    issued gen c k → issued gen c' k := by
  rintro ⟨i, hi, hk⟩
  exact ⟨i, lt_of_lt_of_le hi h, hk⟩

theorem absent_stays_step (gen : Nat → String) (hinj : Function.Injective gen)
    (s : Vault) (k : String) (hiss : issued gen s.ctr k)
    (habs : dget s.store k = none) (o : Op) :
    dget (step gen s o).store k = none := by
  cases o with
  | opTake sid =>
    rw [step_take_store]
    by_cases h : k = sid
    · subst h
      rw [dpop_of_dget_none _ _ habs]
      exact habs
    · rw [dget_dpop_ne _ _ _ h]
      exact habs
  | opPut b =>
    rcases step_put_eq gen b s with he | ⟨v, he⟩
    · rw [he]; exact habs
    · rw [he]
      obtain ⟨i, hi, hk⟩ := hiss
      have hne : k ≠ gen s.ctr := by
        rw [hk]
        intro hh
        exact absurd (hinj hh) (Nat.ne_of_lt hi)
      rw [dget_dset_ne _ _ _ _ hne]
      exact habs

theorem absent_stays_run (gen : Nat → String) (hinj : Function.Injective gen)
    (s : Vault) (k : String) (hiss : issued gen s.ctr k)
    (habs : dget s.store k = none) (ops : List Op) :
    dget (run gen s ops).store k = none := by
  induction ops generalizing s with
  | nil => exact habs
  | cons o t ih =>
    exact ih _ (issued_mono _ _ _ (step_ctr_le gen s o) _ hiss)
      (absent_stays_step gen hinj s k hiss habs o)

/-!
Claim theorems.
-/

/-- C1: single delivery (sequential). When `put` accepts a payload `p` it
returns the freshly drawn id; the first `take` on that id returns 200 with
the stored payload, and every subsequent `take` on it returns the fixed 404
NotFound response. -/
theorem single_delivery (gen : Nat → String) (fields : List (String × JVal))
    (p : JVal) (s : Vault) (hnd : (s.store.map Prod.fst).Nodup)
    (hp : pySubscript (JVal.obj fields) = Except.ok p) :
    ∃ s' : Vault,
      store_secret gen (JVal.obj fields) s = .ok (createdResp (gen s.ctr), s') ∧
      ∀ n : Nat, (takeN (gen s.ctr) s' (n + 1)).1 =
        okResp (JVal.obj [(keyStr, p)]) :: List.replicate n notFoundResp := by
  refine ⟨_, store_secret_accepted gen fields p s hp, ?_⟩
  intro n
  have hget : dget (dset s.store (gen s.ctr) (JVal.obj [(keyStr, p)])) (gen s.ctr) =
      some (JVal.obj [(keyStr, p)]) := dget_dset_self _ _ _
  have hr := retrieve_of_some (gen s.ctr)
      ⟨dset s.store (gen s.ctr) (JVal.obj [(keyStr, p)]), s.ctr + 1⟩
      (JVal.obj [(keyStr, p)]) hget rfl
  have hnd2 := nodup_dset s.store (gen s.ctr) (JVal.obj [(keyStr, p)]) hnd
  have hnone : dget
      (dpop (dset s.store (gen s.ctr) (JVal.obj [(keyStr, p)])) (gen s.ctr)).2
      (gen s.ctr) = none := dget_dpop_self _ _ hnd2
  have habs := takeN_absent (gen s.ctr)
      ⟨(dpop (dset s.store (gen s.ctr) (JVal.obj [(keyStr, p)])) (gen s.ctr)).2,
        s.ctr + 1⟩ hnone n
  simp [takeN, hr, habs]

/-- Witness for C1: the end-to-end scenario of storing "hello-cipher" in the
empty vault, instantiated with two subsequent retrievals. -/
theorem single_delivery_w :
    ∃ s' : Vault,
      store_secret genw (JVal.obj [("encrypted_data", JVal.str "hello-cipher")]) vault0 =
        .ok (createdResp (genw 0), s') ∧
      ∀ n : Nat, (takeN (genw 0) s' (n + 1)).1 =
        okResp (JVal.obj [(keyStr, JVal.str "hello-cipher")]) ::
          List.replicate n notFoundResp :=
  single_delivery genw [("encrypted_data", JVal.str "hello-cipher")]
    (JVal.str "hello-cipher") vault0 (by simp [vault0]) rfl

/-- C2 counterexample: the claim says `put` with an empty-string payload is
rejected with 400, but the code accepts it — the body `{"encrypted_data": ""}`
is a truthy dict containing the key, so the handler returns 201 and stores
the empty string. -/
theorem empty_payload_accepted :
    store_secret (fun _ => "id0") (JVal.obj [("encrypted_data", JVal.str "")]) vault0 =
      .ok (createdResp "id0",
        ⟨[("id0", JVal.obj [("encrypted_data", JVal.str "")])], 1⟩) := rfl

/-- C2 (amended): a put whose body is falsy (e.g. `{}` or `null`) or does
not contain the key `encrypted_data` fails with the 400 InvalidPayload
response, no uuid is drawn, and the mapping and draw counter are unchanged.
(An empty-string value under the key is accepted like any other value.) -/
theorem missing_field_rejected (gen : Nat → String) (body : JVal) (s : Vault)
    (h : truthy body = false ∨ pyIn body = .ok false) :
    store_secret gen body s = .ok (errRequired, s) := by
  rcases h with h | h
  · simp [store_secret, h]
  · by_cases ht : truthy body = false
    · simp [store_secret, ht]
    · simp [store_secret, ht, h]

/-- Witness for the amended C2 at the empty JSON object body. -/
theorem missing_field_rejected_w :
    store_secret genw (JVal.obj []) vault0 = .ok (errRequired, vault0) :=
  missing_field_rejected genw (JVal.obj []) vault0 (Or.inl rfl)

/-- C3: failure atomicity. A take on an id not in the mapping returns the
404 NotFound response and leaves the state exactly unchanged, and a put
that returns the 400 error response leaves the state exactly unchanged. -/
theorem failed_ops_atomic :
    (∀ (sid : String) (s : Vault), dget s.store sid = none →
      retrieve_secret sid s = (notFoundResp, s)) ∧
    (∀ (gen : Nat → String) (body : JVal) (s : Vault) (r : Resp) (s' : Vault),
      store_secret gen body s = .ok (r, s') → r.status = 400 → s' = s) := by
  constructor
  · intro sid s h
    exact retrieve_of_none sid s h
  · intro gen body s r s' h h400
    rcases store_secret_cases gen body s with ⟨e, he⟩ | he | ⟨v, he⟩
    · rw [he] at h; cases h
    · rw [he] at h
      have h2 : errRequired = r ∧ s = s' := by simpa using h
      exact h2.2.symm
    · rw [he] at h
      have h2 : createdResp (gen s.ctr) = r ∧
          (⟨dset s.store (gen s.ctr) (JVal.obj [(keyStr, v)]), s.ctr + 1⟩ : Vault) = s' := by
        simpa using h
      rw [← h2.1] at h400
      simp [createdResp] at h400

/-- Witness for C3: a take on the empty vault with an unknown id, and a put
of the falsy body `null` leaving the state unchanged. -/
theorem failed_ops_atomic_w :
    retrieve_secret "not-a-real-id" vault0 = (notFoundResp, vault0) ∧ vault0 = vault0 :=
  ⟨failed_ops_atomic.1 "not-a-real-id" vault0 rfl,
   failed_ops_atomic.2 genw JVal.null vault0 errRequired vault0 rfl rfl⟩

/-- C4: no cross-talk. Two consecutive accepted puts draw distinct ids
(uuid4 draws never collide, modelled by the hypothesis on `gen`), and a take
on the second id returns the second payload, never the first. -/
theorem no_crosstalk (gen : Nat → String) (fA fB : List (String × JVal))
    (pA pB : JVal) (s : Vault)
    (hA : pySubscript (JVal.obj fA) = Except.ok pA)
    (hB : pySubscript (JVal.obj fB) = Except.ok pB)
    (hgen : gen s.ctr ≠ gen (s.ctr + 1)) :
    ∃ s1 s2 : Vault,
      store_secret gen (JVal.obj fA) s = .ok (createdResp (gen s.ctr), s1) ∧
      store_secret gen (JVal.obj fB) s1 = .ok (createdResp (gen (s.ctr + 1)), s2) ∧
      gen s.ctr ≠ gen (s.ctr + 1) ∧
      (retrieve_secret (gen (s.ctr + 1)) s2).1 = okResp (JVal.obj [(keyStr, pB)]) := by
  have e1 := store_secret_accepted gen fA pA s hA
  have e2 := store_secret_accepted gen fB pB
      ⟨dset s.store (gen s.ctr) (JVal.obj [(keyStr, pA)]), s.ctr + 1⟩ hB
  refine ⟨_, _, e1, e2, hgen, ?_⟩
  have hget : dget (dset (dset s.store (gen s.ctr) (JVal.obj [(keyStr, pA)]))
      (gen (s.ctr + 1)) (JVal.obj [(keyStr, pB)])) (gen (s.ctr + 1)) =
      some (JVal.obj [(keyStr, pB)]) := dget_dset_self _ _ _
  simp [retrieve_of_some (gen (s.ctr + 1))
    ⟨dset (dset s.store (gen s.ctr) (JVal.obj [(keyStr, pA)])) (gen (s.ctr + 1))
      (JVal.obj [(keyStr, pB)]), s.ctr + 1 + 1⟩
    (JVal.obj [(keyStr, pB)]) hget rfl]

/-- Witness for C4: puts of "a" then "b" into the empty vault. -/
theorem no_crosstalk_w :
    ∃ s1 s2 : Vault,
      store_secret genw (JVal.obj [("encrypted_data", JVal.str "a")]) vault0 =
        .ok (createdResp (genw 0), s1) ∧
      store_secret genw (JVal.obj [("encrypted_data", JVal.str "b")]) s1 =
        .ok (createdResp (genw 1), s2) ∧
      genw 0 ≠ genw 1 ∧
      (retrieve_secret (genw 1) s2).1 = okResp (JVal.obj [(keyStr, JVal.str "b")]) :=
  no_crosstalk genw [("encrypted_data", JVal.str "a")] [("encrypted_data", JVal.str "b")]
    (JVal.str "a") (JVal.str "b") vault0 rfl rfl (by decide)

/-- C5: effect of a successful put at a fresh id (uuid4 freshness is the
hypothesis): the mapping grows by exactly one entry, every other entry is
untouched, the new entry holds the payload, and a take on the returned id
immediately succeeds. -/
theorem put_frame (gen : Nat → String) (fields : List (String × JVal)) (p : JVal)
    (s : Vault) (hp : pySubscript (JVal.obj fields) = Except.ok p)
    (hfresh : dget s.store (gen s.ctr) = none) :
    ∃ s' : Vault,
      store_secret gen (JVal.obj fields) s = .ok (createdResp (gen s.ctr), s') ∧
      s'.store.length = s.store.length + 1 ∧
      dget s'.store (gen s.ctr) = some (JVal.obj [(keyStr, p)]) ∧
      (∀ k : String, k ≠ gen s.ctr → dget s'.store k = dget s.store k) ∧
      (retrieve_secret (gen s.ctr) s').1 = okResp (JVal.obj [(keyStr, p)]) := by
  refine ⟨_, store_secret_accepted gen fields p s hp, ?_, dget_dset_self _ _ _, ?_, ?_⟩
  · rw [dset_of_dget_none _ _ _ hfresh]
    simp
  · intro k hk
    exact dget_dset_ne _ _ _ _ hk
  · simp [retrieve_of_some (gen s.ctr)
      ⟨dset s.store (gen s.ctr) (JVal.obj [(keyStr, p)]), s.ctr + 1⟩
      (JVal.obj [(keyStr, p)]) (dget_dset_self _ _ _) rfl]

/-- Witness for C5 at a put into the empty vault. -/
theorem put_frame_w :
    ∃ s' : Vault,
      store_secret genw (JVal.obj [("encrypted_data", JVal.str "v")]) vault0 =
        .ok (createdResp (genw 0), s') ∧
      s'.store.length = vault0.store.length + 1 ∧
      dget s'.store (genw 0) = some (JVal.obj [(keyStr, JVal.str "v")]) ∧
      (∀ k : String, k ≠ genw 0 → dget s'.store k = dget vault0.store k) ∧
      (retrieve_secret (genw 0) s').1 = okResp (JVal.obj [(keyStr, JVal.str "v")]) :=
  put_frame genw [("encrypted_data", JVal.str "v")] (JVal.str "v") vault0 rfl rfl

/-- C6: exactly-once delivery under N takes racing on one id. The
check-and-remove of a take is the single builtin `dict.pop`, executed
atomically by the interpreter, so any concurrent schedule of N takes of the
same id is some sequential order of the N pops; in every such order the
first take succeeds with the stored payload and the other N−1 observe the
404 NotFound response — no two callers can both read the payload. -/
theorem exactly_once (sid : String) (v : JVal) (s : Vault) (n : Nat)
    (hnd : (s.store.map Prod.fst).Nodup)
    (hs : dget s.store sid = some (JVal.obj [(keyStr, v)])) (hn : 1 ≤ n) :
    (takeN sid s n).1 =
      okResp (JVal.obj [(keyStr, v)]) :: List.replicate (n - 1) notFoundResp := by
  obtain ⟨m, rfl⟩ : ∃ m, n = m + 1 := ⟨n - 1, (Nat.succ_pred_eq_of_pos hn).symm⟩
  have hr := retrieve_of_some sid s (JVal.obj [(keyStr, v)]) hs rfl
  have hnone : dget (dpop s.store sid).2 sid = none := dget_dpop_self _ _ hnd
  have habs := takeN_absent sid ⟨(dpop s.store sid).2, s.ctr⟩ hnone m
  simp [takeN, hr, habs]

/-- Witness for C6: three takes race on one stored secret; one 200, two 404. -/
theorem exactly_once_w :
    (takeN "I" ⟨[("I", JVal.obj [(keyStr, JVal.null)])], 1⟩ 3).1 =
      okResp (JVal.obj [(keyStr, JVal.null)]) :: List.replicate 2 notFoundResp :=
  exactly_once "I" JVal.null ⟨[("I", JVal.obj [(keyStr, JVal.null)])], 1⟩ 3
    (by simp) rfl (by decide)

/-- C7: NotFound indistinguishability. Any two failing takes — whether the
id was never issued or was already retrieved — produce the identical
response: the same 404 status and the same message body. -/
theorem notfound_uniform (s1 s2 : Vault) (id1 id2 : String)
    (h1 : dget s1.store id1 = none) (h2 : dget s2.store id2 = none) :
    (retrieve_secret id1 s1).1 = (retrieve_secret id2 s2).1 ∧
    (retrieve_secret id1 s1).1 = notFoundResp := by
  rw [retrieve_of_none _ _ h1, retrieve_of_none _ _ h2]
  exact ⟨rfl, rfl⟩

/-- Witness for C7: a never-issued id against the fresh vault versus an
already-consumed id against a drained vault. -/
theorem notfound_uniform_w :
    (retrieve_secret "never-issued" vault0).1 = (retrieve_secret "consumed" ⟨[], 5⟩).1 ∧
    (retrieve_secret "never-issued" vault0).1 = notFoundResp :=
  notfound_uniform vault0 ⟨[], 5⟩ "never-issued" "consumed" rfl rfl

/-- C9 (implicit): key-presence-only validation. Any JSON object body
containing the key `encrypted_data` is accepted with 201 whatever the
associated value — the value is stored verbatim and a later take on the
returned id yields exactly it; nothing inspects the value. -/
theorem key_only_validation (gen : Nat → String) (fields : List (String × JVal))
    (p : JVal) (s : Vault) (hp : pySubscript (JVal.obj fields) = Except.ok p) :
    ∃ s' : Vault,
      store_secret gen (JVal.obj fields) s = .ok (createdResp (gen s.ctr), s') ∧
      (createdResp (gen s.ctr)).status = 201 ∧
      dget s'.store (gen s.ctr) = some (JVal.obj [(keyStr, p)]) ∧
      (retrieve_secret (gen s.ctr) s').1 = okResp (JVal.obj [(keyStr, p)]) := by
  refine ⟨_, store_secret_accepted gen fields p s hp, rfl, dget_dset_self _ _ _, ?_⟩
  simp [retrieve_of_some (gen s.ctr)
    ⟨dset s.store (gen s.ctr) (JVal.obj [(keyStr, p)]), s.ctr + 1⟩
    (JVal.obj [(keyStr, p)]) (dget_dset_self _ _ _) rfl]

/-- Witness for C9 at the value `null` (no validation of the value at all). -/
theorem key_only_validation_w :
    ∃ s' : Vault,
      store_secret genw (JVal.obj [("encrypted_data", JVal.null)]) vault0 =
        .ok (createdResp (genw 0), s') ∧
      (createdResp (genw 0)).status = 201 ∧
      dget s'.store (genw 0) = some (JVal.obj [(keyStr, JVal.null)]) ∧
      (retrieve_secret (genw 0) s').1 = okResp (JVal.obj [(keyStr, JVal.null)]) :=
  key_only_validation genw [("encrypted_data", JVal.null)] JVal.null vault0 rfl

/-- C10 counterexample: the claim says `store_secret` never raises from the
membership test or the subscript, but on the parsed JSON body `5` the
expression `'encrypted_data' in data` raises `TypeError`, which escapes the
handler (Flask turns it into a 500, not a 201/400). -/
theorem put_raises_on_num :
    store_secret (fun _ => "id0") (JVal.num 5) vault0 = .error PyErr.typeError := rfl

/-- C10 (amended): totality holds for JSON object bodies — every dict body
gets a normal 201 or 400 response — and every falsy body of any type gets
the 400 response; a truthy non-dict body can instead raise `TypeError`
(see the counterexample). -/
theorem put_total_on_objects (gen : Nat → String) (s : Vault) :
    (∀ fields : List (String × JVal), ∃ r : Resp, ∃ s' : Vault,
      store_secret gen (JVal.obj fields) s = .ok (r, s') ∧
      (r.status = 201 ∨ r.status = 400)) ∧
    (∀ body : JVal, truthy body = false →
      store_secret gen body s = .ok (errRequired, s)) := by
  constructor
  · intro fields
    by_cases ht : truthy (JVal.obj fields) = false
    · exact ⟨errRequired, s, by simp [store_secret, ht], Or.inr rfl⟩
    · cases hin : fields.any (fun kv => kv.1 == keyStr) with
      | false =>
        refine ⟨errRequired, s, ?_, Or.inr rfl⟩
        simp [store_secret, ht, pyIn, hin]
      | true =>
        have hsome : (fields.find? (fun kv => kv.1 == keyStr)).isSome := by
          rw [List.find?_isSome]
          obtain ⟨kv, hmem, hpr⟩ := List.any_eq_true.mp hin
          exact ⟨kv, hmem, hpr⟩
        obtain ⟨kv, hfind⟩ := Option.isSome_iff_exists.mp hsome
        refine ⟨createdResp (gen s.ctr),
          ⟨dset s.store (gen s.ctr) (JVal.obj [(keyStr, kv.2)]), s.ctr + 1⟩,
          ?_, Or.inl rfl⟩
        simp [store_secret, ht, pyIn, hin, pySubscript, hfind]
  · intro body hb
    simp [store_secret, hb]

/-- Witness for the amended C10: an object body without the key gets a
normal response, and the falsy body `0` gets the 400 response. -/
theorem put_total_on_objects_w :
    (∃ r : Resp, ∃ s' : Vault,
      store_secret genw (JVal.obj [("k", JVal.null)]) vault0 = .ok (r, s') ∧
      (r.status = 201 ∨ r.status = 400)) ∧
    store_secret genw (JVal.num 0) vault0 = .ok (errRequired, vault0) :=
  ⟨(put_total_on_objects genw vault0).1 [("k", JVal.null)],
   (put_total_on_objects genw vault0).2 (JVal.num 0) rfl⟩

/-- C8: vault state invariant. In every state reachable from the initial
state (with an injective — never-repeating — uuid stream): ids bind uniquely
to well-formed stored secrets; a stored binding is lost or changed only by a
successful take of exactly that id (so a secret has just the two states
present/absent, nothing updates a stored payload, and the only transition is
present → absent via a successful take); and once a held id has been
consumed, no later operations ever make it present again. -/
theorem vault_state_machine (gen : Nat → String) (hinj : Function.Injective gen)
    (ops : List Op) : StateMachineProp gen ops := by
  obtain ⟨hnd, hiss, hwf⟩ :=
    vaultInv_run gen vault0 (vaultInv_vault0 gen) ops
  refine ⟨⟨hnd, hwf⟩, ?_, ?_⟩
  · intro o sid v hpre hpost
    cases o with
    | opPut b =>
      exfalso
      rcases step_put_eq gen b (run gen vault0 ops) with he | ⟨w, he⟩
      · rw [he] at hpost
        exact hpost hpre
      · have hpost2 : dget (dset (run gen vault0 ops).store
            (gen (run gen vault0 ops).ctr) (JVal.obj [(keyStr, w)])) sid ≠ some v := by
          rw [he] at hpost
          exact hpost
        obtain ⟨i, hi, hk⟩ := hiss (sid, v) (dget_some_mem _ _ _ hpre)
        have hk2 : sid = gen i := hk
        have hne : sid ≠ gen (run gen vault0 ops).ctr := by
          rw [hk2]
          intro hh
          exact absurd (hinj hh) (Nat.ne_of_lt hi)
        rw [dget_dset_ne _ _ _ _ hne] at hpost2
        exact hpost2 hpre
    | opTake tid =>
      by_cases hid : tid = sid
      · subst hid
        refine ⟨rfl, ?_⟩
        obtain ⟨w, hwv⟩ := hwf (tid, v) (dget_some_mem _ _ _ hpre)
        have hwv2 : v = JVal.obj [(keyStr, w)] := hwv
        have htr : truthy v = true := by
          rw [hwv2]
          rfl
        simp [retrieve_of_some tid (run gen vault0 ops) v hpre htr]
      · exfalso
        have hpost2 : dget (dpop (run gen vault0 ops).store tid).2 sid ≠ some v := by
          rw [step_take_store] at hpost
          exact hpost
        rw [dget_dpop_ne _ _ _ (Ne.symm hid)] at hpost2
        exact hpost2 hpre
  · intro more sid hne habs later
    obtain ⟨v, hv⟩ : ∃ v, dget (run gen vault0 ops).store sid = some v := by
      cases hd : dget (run gen vault0 ops).store sid with
      | none => exact absurd hd hne
      | some v => exact ⟨v, rfl⟩
    obtain ⟨i, hi, hk⟩ := hiss (sid, v) (dget_some_mem _ _ _ hv)
    have hiss2 : issued gen (run gen (run gen vault0 ops) more).ctr sid :=
      issued_mono gen _ _ (run_ctr_le gen _ more) sid ⟨i, hi, hk⟩
    exact absent_stays_run gen hinj _ sid hiss2 habs later

/-- Witness for C8 at a concrete reachable state: one put then one take. -/
theorem vault_state_machine_w :
    StateMachineProp genw
      [Op.opPut (JVal.obj [("encrypted_data", JVal.null)]), Op.opTake (genw 0)] :=
  vault_state_machine genw genw_inj
    [Op.opPut (JVal.obj [("encrypted_data", JVal.null)]), Op.opTake (genw 0)]
